import Mathlib

/-!
Verification development for the single-file DMG tool `pokerok.py`.

The repository is a thin command dispatcher around OS utilities
(disk-image attach/detach, code-signing checks).  This file gives a shallow
embedding of its pure logic and a trace semantics for the stateful
subcommands, and proves the specification claims against it:

* the mount-report (plist) parsing of `hdiutil_attach` (lines 60-82),
* the detach-with-forced-retry logic of `hdiutil_detach` (lines 84-90),
* the filesystem effects of `copy_app` (lines 104-117), modelled over an
  explicit association-list filesystem,
* the top-level listing `list_top` (lines 92-96) and bundle search
  `find_app_bundle` (lines 98-102),
* the result conversion of `spctl_assess` / `codesign_verify`
  (lines 119-133), and
* the attach/try/finally/detach discipline of the `list` / `copy` /
  `verify` subcommands (lines 164-203), as a trace over an environment
  that decides the outcome of every external step.
-/

namespace Pokerok

/-! ## String helpers mirroring the Python string primitives used -/

/-- Python `s.startswith(pat)`, on the underlying character lists. -/
def strStartsWith (s pat : String) : Bool :=
  pat.toList.isPrefixOf s.toList

/-- Python `name.endswith(pat)` (the effect of matching the glob pattern
in `rglob` against a final component), on the underlying character lists. -/
def strEndsWith (s pat : String) : Bool :=
  pat.toList.isSuffixOf s.toList

/-- Python `s.strip()`: drop whitespace from both ends. -/
def pyStrip (s : String) : String :=
  String.mk (((s.toList.dropWhile Char.isWhitespace).reverse.dropWhile
    Char.isWhitespace).reverse)

/-- Python `a or b` on strings: `a` when `a` is truthy (nonempty), else `b`. -/
def pyOrStr (a b : String) : String :=
  if a = "" then b else a

/-- Lexicographic comparison of character lists by code point: the order
Python uses to compare strings (and hence `pathlib` paths with a common
parent) in `sorted`. -/
def charListLe : List Char → List Char → Bool
  | [], _ => true
  | _ :: _, [] => false
  | a :: as, b :: bs =>
    if a.toNat < b.toNat then true
    else if b.toNat < a.toNat then false
    else charListLe as bs

/-- Python `a <= b` on strings. -/
def strLe (a b : String) : Bool :=
  charListLe a.toList b.toList

/-! ## The mount report model (`hdiutil_attach`, pokerok.py lines 60-82)

`hdiutil attach -plist` returns a plist whose `system-entities` key holds a
list of dictionaries; the code reads the `mount-point`, `dev-entry` and
`content-hint` keys of each.  We model one such dictionary by the three
optional string fields actually consulted. -/

structure SysEntity where
  mountPoint : Option String
  devEntry : Option String
  contentHint : Option String
deriving DecidableEq, Repr

/-- Python truthiness of an optional string (`if not device:`):
falsy when absent or empty. -/
def pyTruthyStr (s : Option String) : Bool :=
  match s with
  | none => false
  | some v => v ≠ ""

/-- The body of the first `for ent in pl.get('system-entities', [])` loop of
`hdiutil_attach` (lines 65-69): `mnt` is overwritten by every entry carrying
a `mount-point`; `device` is overwritten by every entry carrying a
`dev-entry` whose `content-hint` starts with `Apple_HFS`. -/
def attachStep (acc : Option String × Option String) (ent : SysEntity) :
    Option String × Option String :=
  ((match ent.mountPoint with
    | some m => some m
    | none => acc.1),
   (if ent.devEntry.isSome &&
        strStartsWith ((ent.contentHint).getD "") "Apple_HFS" then
      ent.devEntry
    else acc.2))

/-- The first loop of `hdiutil_attach` (lines 63-69), starting from
`device = None; mnt = None`. -/
def attachScan (ents : List SysEntity) : Option String × Option String :=
  ents.foldl attachStep (none, none)

/-- The mount-point fallback loop (lines 71-74): first entry exposing a
`mount-point`. -/
def firstMountPoint (ents : List SysEntity) : Option String :=
  ents.findSome? (fun ent => ent.mountPoint)

/-- The device fallback loop (lines 76-79): first entry exposing a
`dev-entry`. -/
def firstDevEntry (ents : List SysEntity) : Option String :=
  ents.findSome? (fun ent => ent.devEntry)

/-- The complete selection performed by `hdiutil_attach` (lines 63-79):
the scan, then the two independent fallbacks.  The mount point is a
`pathlib.Path`, truthy whenever set, so its fallback fires exactly when the
scan produced none; the device is a string, falsy also when empty. -/
def attach_select (ents : List SysEntity) : Option String × Option String :=
  let s := attachScan ents
  let mnt := if s.1 = none then firstMountPoint ents else s.1
  let dev := if pyTruthyStr s.2 then s.2 else firstDevEntry ents
  (mnt, dev)

/-- The final check and return of `hdiutil_attach` (lines 80-82):
`if not (mnt and device): raise RuntimeError(...)`, else `return mnt, device`.
A set mount point (a `Path`) is always truthy; the device string is falsy
when empty. -/
def hdiutil_attach_resolve (ents : List SysEntity) :
    Except Unit (String × String) :=
  match attach_select ents with
  | (some m, some d) => if d = "" then Except.error () else Except.ok (m, d)
  | (_, _) => Except.error ()

/-- Modelled from the spec (claim C2's words, spec section 4.1): primary
selection picks the entry whose content-type hint indicates a standard
filesystem volume and takes BOTH the mount point and the device identifier
from it; only when no entry matches the hint does it fall back to the first
entry exposing a mount point, and separately the first entry exposing a
device identifier. -/
def attach_select_spec (ents : List SysEntity) :
    Option String × Option String :=
  match ents.find?
      (fun ent => strStartsWith ((ent.contentHint).getD "") "Apple_HFS") with
  | some ent => (ent.mountPoint, ent.devEntry)
  | none => (firstMountPoint ents, firstDevEntry ents)

/-- Helper characterisation: the value of the last entry (in list order) on
which `f` is set — the result of a loop that overwrites on every hit. -/
def lastSome (f : SysEntity → Option String) : List SysEntity → Option String
  | [] => none
  | ent :: rest =>
    match lastSome f rest with
    | some v => some v
    | none => f ent

/-- The guarded device extraction used by the scan loop. -/
def hfsDev (ent : SysEntity) : Option String :=
  if ent.devEntry.isSome &&
      strStartsWith ((ent.contentHint).getD "") "Apple_HFS" then
    ent.devEntry
  else none

/-! ## The signature checks (`spctl_assess` / `codesign_verify`,
pokerok.py lines 119-133)

`run` (line 36) is `subprocess.run(..., check=True, capture_output=True)`:
given the process outcome `(returncode, stdout, stderr)` it returns normally
on exit code 0 and raises `CalledProcessError` (carrying the same streams)
otherwise.  Both checks wrap their single `run` call in
`try/except CalledProcessError`, so composed they are total functions of the
process outcome. -/

structure ProcResult where
  returncode : Int
  stdout : String
  stderr : String
deriving DecidableEq, Repr

/-- `spctl_assess` (lines 119-125) as a function of the outcome of its one
external command: zero exit gives `(True, res.stderr.strip() or
res.stdout.strip())`; non-zero exit is caught and gives
`(False, (e.stderr or e.stdout).strip())`. -/
def spctl_assess (r : ProcResult) : Bool × String :=
  if r.returncode = 0 then
    (true, pyOrStr (pyStrip r.stderr) (pyStrip r.stdout))
  else
    (false, pyStrip (pyOrStr r.stderr r.stdout))

/-- `codesign_verify` (lines 127-133): identical result conversion around
its own external command. -/
def codesign_verify (r : ProcResult) : Bool × String :=
  if r.returncode = 0 then
    (true, pyOrStr (pyStrip r.stderr) (pyStrip r.stdout))
  else
    (false, pyStrip (pyOrStr r.stderr r.stdout))

/-! ## The filesystem model (for `list_top`, `find_app_bundle`, `copy_app`)

A filesystem is an association list from absolute paths (component lists) to
node kinds.  The list order doubles as the enumeration order of directory
scans (`rglob`), which on the real system is filesystem-dependent.  Symbolic
links are a node kind of their own; `copytree` is invoked with
`symlinks=True`, which copies link entries as link entries, so link targets
need not be modelled. -/

/-- A filesystem path as its list of components. -/
abbrev FPath := List String

/-- Kind of a filesystem node. -/
inductive FType where
  | dir
  | file
  | symlink
deriving DecidableEq, Repr

/-- A filesystem: existing nodes with their kinds, in enumeration order. -/
abbrev FS := List (FPath × FType)

/-- Kind of the node at `p`, if it exists (first match wins). -/
def FS.lookup : FS → FPath → Option FType
  | [], _ => none
  | e :: rest, p => if e.1 = p then some e.2 else FS.lookup rest p

/-- Python `dest.exists()`. -/
def FS.pathExists (fs : FS) (p : FPath) : Bool :=
  (FS.lookup fs p).isSome

/-- Python `dest.is_dir()`.  (Following of symbolic links is not modelled:
a `symlink` node counts as a non-directory.) -/
def FS.pathIsDir (fs : FS) (p : FPath) : Bool :=
  FS.lookup fs p = some FType.dir

/-- Well-formed filesystem: each path occurs at most once. -/
abbrev FS.wf (fs : FS) : Prop :=
  (fs.map Prod.fst).Nodup

/-- Python `Path.name`: the last component. -/
def basename (p : FPath) : String :=
  p.getLastD ""

/-- The nonempty ancestors of `d`, shortest first, `d` itself last:
the directories `mkdir(parents=True)` walks. -/
def ancestors (d : FPath) : List FPath :=
  (List.range d.length).map (fun i => d.take (i + 1))

/-- One step of `mkdir(parents=True, exist_ok=True)`: an existing directory
is accepted (`exist_ok`), an existing non-directory raises, a missing
directory is created (appended). -/
def mkdirStep (fs : FS) (pre : FPath) : Except Unit FS :=
  match FS.lookup fs pre with
  | some FType.dir => Except.ok fs
  | some _ => Except.error ()
  | none => Except.ok (fs ++ [(pre, FType.dir)])

/-- Run `mkdirStep` along a list of directories, failing fast. -/
def mkdirAux (fs : FS) : List FPath → Except Unit FS
  | [] => Except.ok fs
  | pre :: rest =>
    match mkdirStep fs pre with
    | Except.error e => Except.error e
    | Except.ok fs2 => mkdirAux fs2 rest

/-- Python `dest_dir.mkdir(parents=True, exist_ok=True)` (line 105). -/
def mkdirParents (fs : FS) (d : FPath) : Except Unit FS :=
  mkdirAux fs (ancestors d)

/-- Python `shutil.rmtree(dest)` (line 113): remove the node and everything
below it. -/
def rmtree (fs : FS) (d : FPath) : FS :=
  fs.filter (fun e => !(d.isPrefixOf e.1))

/-- Python `dest.unlink()` (line 115): remove the single node. -/
def unlinkNode (fs : FS) (p : FPath) : FS :=
  fs.filter (fun e => !(decide (e.1 = p)))

/-- Python `shutil.copytree(app_src, dest, symlinks=True)` (line 116):
fails when the source is not a directory or the destination already exists;
otherwise replicates the whole source subtree (the source node included) at
the destination, keeping each node's kind — in particular symlink entries
stay symlink entries because `symlinks=True` is passed. -/
def copytreeSymlinks (fs : FS) (src dest : FPath) : Except Unit FS :=
  if FS.lookup fs src ≠ some FType.dir then Except.error ()
  else if FS.pathExists fs dest then Except.error ()
  else Except.ok (fs ++ fs.filterMap
    (fun e =>
      if src.isPrefixOf e.1 then
        some (dest ++ e.1.drop src.length, e.2)
      else none))

/-- `copy_app` (pokerok.py lines 104-117) over the filesystem model.
Returns the updated filesystem and the returned destination path.
The `[DRY-RUN]` message of line 108 is output, not a filesystem effect,
and is not modelled here. -/
def copy_app (fs : FS) (app_src : FPath) (dest_dir : FPath)
    (dry_run : Bool) : Except Unit (FS × FPath) :=
  match mkdirParents fs dest_dir with
  | Except.error e => Except.error e
  | Except.ok fs1 =>
    let dest := dest_dir ++ [basename app_src]
    if dry_run then Except.ok (fs1, dest)
    else
      let fs2 :=
        if FS.pathExists fs1 dest then
          if FS.pathIsDir fs1 dest then rmtree fs1 dest
          else unlinkNode fs1 dest
        else fs1
      match copytreeSymlinks fs2 app_src dest with
      | Except.error e => Except.error e
      | Except.ok fs3 => Except.ok (fs3, dest)

/-! ## Bundle search (`find_app_bundle`, pokerok.py lines 98-102) -/

/-- Does `rglob('*.app')` started at `m` yield the node `e`?  It yields
every node strictly below `m` (any kind, files included) whose final
component matches the glob `*.app`, i.e. ends with `.app`.  The yield order
is filesystem-dependent; the model uses the `FS` enumeration order. -/
def rglobAppMatch (m : FPath) (e : FPath × FType) : Bool :=
  m.isPrefixOf e.1 && decide (m.length < e.1.length) &&
    strEndsWith (basename e.1) ".app"

/-- `find_app_bundle` (lines 98-102): return the first yield of
`mountpoint.rglob('*.app')`, or `None` when there is none. -/
def find_app_bundle (fs : FS) (mountpoint : FPath) : Option FPath :=
  (fs.find? (rglobAppMatch mountpoint)).map (fun e => e.1)

/-- Modelled from the spec (claim C4's words, spec sections 3 and 4.1):
the first DIRECTORY whose name ends in the application-bundle suffix found
under the mount point; `None` when no such directory exists. -/
def find_app_bundle_spec (fs : FS) (mountpoint : FPath) : Option FPath :=
  (fs.find? (fun e =>
    rglobAppMatch mountpoint e && decide (e.2 = FType.dir))).map (fun e => e.1)

/-! ## Top-level listing (`list_top`, pokerok.py lines 92-96) -/

/-- Is `p` an immediate child of `m`? (what `m.iterdir()` yields). -/
def isChildOf (m p : FPath) : Bool :=
  m.isPrefixOf p && decide (p.length = m.length + 1)

/-- The immediate children of `m` with their kinds, as `(name, kind)`. -/
def childEntries (fs : FS) (m : FPath) : List (String × FType) :=
  fs.filterMap (fun e =>
    if isChildOf m e.1 then some (basename e.1, e.2) else none)

/-- The annotated line `f"{'[D]' if p.is_dir() else '[F]'} {p.name}"`
(line 95) for one child. -/
def annotate (c : String × FType) : String :=
  (if c.2 = FType.dir then "[D] " else "[F] ") ++ c.1

/-- The comparison `sorted` applies: by name (Python string order). -/
def childLe (a b : String × FType) : Prop :=
  strLe a.1 b.1 = true

instance : DecidableRel childLe :=
  fun a b => instDecidableEqBool (strLe a.1 b.1) true

/-- `list_top` (lines 92-96): `sorted(mountpoint.iterdir())` sorts the
children by path, which for a common parent is by name; each is then
annotated as directory or file. -/
def list_top (fs : FS) (mountpoint : FPath) : List String :=
  ((childEntries fs mountpoint).insertionSort childLe).map annotate

/-- Recover the child name from an annotated line (drop the 4-character
tag `"[D] "` / `"[F] "`). -/
def nameOf (s : String) : String :=
  s.drop 4

/-! ## Trace semantics of the subcommands (pokerok.py lines 164-203)

The `list` / `copy` / `verify` subcommands attach the image, run their body
inside `try:`, and detach in `finally:`.  External steps are decided by an
environment: each field gives the outcome the outside world hands the
corresponding call.  A command evaluates to the list of events it performed
(in order) together with the exception, if any, that propagates to `main`.
Python `finally` semantics: the `finally` block always runs; an exception
raised inside it supersedes the body's exception. -/

/-- The exceptions that can cross the modelled boundaries:
`subprocess.CalledProcessError` from `run` (carrying the exit code) — the
only exception `run` raises, since every external-command failure surfaces
as a non-zero exit — `RuntimeError`, and other OS-level errors. -/
inductive Err where
  | tool (returncode : Int)
  | runtime (msg : String)
  | os (msg : String)
deriving DecidableEq, Repr

/-- Observable events of one subcommand invocation. -/
inductive Ev where
  | attachCall
  | detachCall (target : String) (forced : Bool)
  | findCall
  | copyCall
  | spctlCall
  | codesignCall
  | printLine (s : String)
deriving DecidableEq, Repr

/-- The environment: what the outside world answers to each external step
of a single subcommand invocation. -/
structure Env where
  /-- Outcome of `hdiutil_attach(dmg, Path(tmp))` (mountpoint, device). -/
  attachResult : Except Err (String × String)
  /-- Outcome of `list_top(mp)`: its lines, or an OS error while scanning. -/
  listTopRes : Except Err (List String)
  /-- Outcome of `find_app_bundle(mp)`. -/
  findRes : Except Err (Option String)
  /-- Outcome of `copy_app(app, dest, dry_run=...)`: the printed
  destination, or the exception it raised. -/
  copyRes : Except Err String
  /-- Process outcome of the one `spctl` invocation. -/
  spctlProc : ProcResult
  /-- Process outcome of the one `codesign` invocation. -/
  codesignProc : ProcResult
  /-- Exit code of `run(['hdiutil', 'detach', target])` when non-zero. -/
  detachNormalErr : Option Int
  /-- Exit code of `run(['hdiutil', 'detach', '-force', target])` when
  non-zero. -/
  detachForceErr : Option Int
  /-- The `--dry-run` flag of the `copy` subcommand. -/
  dryRun : Bool
deriving Repr

/-- `hdiutil_detach` (lines 84-90) as a trace: try a normal detach; on
`CalledProcessError` retry exactly once with `-force`; a failure of the
forced retry propagates out of the `except` block. -/
def hdiutil_detachT (env : Env) (target : String) : List Ev × Option Err :=
  match env.detachNormalErr with
  | none => ([Ev.detachCall target false], none)
  | some _ =>
    match env.detachForceErr with
    | none => ([Ev.detachCall target false, Ev.detachCall target true], none)
    | some rc2 =>
      ([Ev.detachCall target false, Ev.detachCall target true],
       some (Err.tool rc2))

/-- Python `try: body finally: hdiutil_detach(dev)` (the shape of lines
168-173, 180-187, 193-203): the detach always runs; its exception, if any,
supersedes the body's. -/
def withDetach (env : Env) (dev : String) (body : List Ev × Option Err) :
    List Ev × Option Err :=
  let det := hdiutil_detachT env dev
  (body.1 ++ det.1,
   match det.2 with
   | some e => some e
   | none => body.2)

/-- `cmd_list` (lines 164-173): attach, print the header and the annotated
lines, detach in `finally`.  A failing attach propagates before the `try`
is entered. -/
def cmd_list (env : Env) : List Ev × Option Err :=
  match env.attachResult with
  | Except.error e => ([Ev.attachCall], some e)
  | Except.ok (mp, dev) =>
    withDetach env dev
      (match env.listTopRes with
       | Except.error e =>
         ([Ev.printLine ("Содержимое " ++ mp ++ ":")], some e)
       | Except.ok lines =>
         (Ev.printLine ("Содержимое " ++ mp ++ ":") ::
           lines.map (fun l => Ev.printLine ("   " ++ l)), none))
    |> (fun r => (Ev.attachCall :: r.1, r.2))

/-- `cmd_copy` (lines 175-187): attach, find the bundle (raising
`RuntimeError` when absent), copy, print, detach in `finally`. -/
def cmd_copy (env : Env) : List Ev × Option Err :=
  match env.attachResult with
  | Except.error e => ([Ev.attachCall], some e)
  | Except.ok (_, dev) =>
    withDetach env dev
      (match env.findRes with
       | Except.error e => ([Ev.findCall], some e)
       | Except.ok none =>
         ([Ev.findCall], some (Err.runtime "В образе не найден .app пакет."))
       | Except.ok (some _) =>
         match env.copyRes with
         | Except.error e => ([Ev.findCall, Ev.copyCall], some e)
         | Except.ok out =>
           ([Ev.findCall, Ev.copyCall,
             Ev.printLine ((if env.dryRun then "[DRY-RUN] " else "") ++
               "Готово: " ++ out)], none))
    |> (fun r => (Ev.attachCall :: r.1, r.2))

/-- `cmd_verify` (lines 189-203): attach, find the bundle (raising
`RuntimeError` when absent), run both checks — which are total given the
process outcomes — print one OK/FAIL line per check, detach in `finally`. -/
def cmd_verify (env : Env) : List Ev × Option Err :=
  match env.attachResult with
  | Except.error e => ([Ev.attachCall], some e)
  | Except.ok (_, dev) =>
    withDetach env dev
      (match env.findRes with
       | Except.error e => ([Ev.findCall], some e)
       | Except.ok none =>
         ([Ev.findCall], some (Err.runtime "В образе не найден .app пакет."))
       | Except.ok (some app) =>
         let gate := spctl_assess env.spctlProc
         let sign := codesign_verify env.codesignProc
         ([Ev.findCall,
           Ev.printLine ("Проверяем: " ++ app),
           Ev.spctlCall,
           Ev.printLine ("Gatekeeper: " ++
             (if gate.1 then "OK" else "FAIL") ++ " — " ++ gate.2),
           Ev.codesignCall,
           Ev.printLine ("codesign:   " ++
             (if sign.1 then "OK" else "FAIL") ++ " — " ++ sign.2)], none))
    |> (fun r => (Ev.attachCall :: r.1, r.2))

/-- No detach call of any kind appears in the trace. -/
def noDetach (evs : List Ev) : Prop :=
  ∀ t f, Ev.detachCall t f ∉ evs

/-! ## Concrete instances used by witnesses and counterexamples -/

/-- A mount report with three entries: only the middle one carries the
`Apple_HFS` content hint, and a later entry still exposes a mount point. -/
def c2ents : List SysEntity :=
  [⟨some "/Volumes/A", none, none⟩,
   ⟨some "/Volumes/B", some "/dev/disk4s1", some "Apple_HFS"⟩,
   ⟨some "/Volumes/C", none, none⟩]

/-- A one-entry mount report that resolves cleanly. -/
def c5ents : List SysEntity :=
  [⟨some "/Volumes/V", some "/dev/disk4s2", some "Apple_HFS"⟩]

/-- An environment where the normal detach fails with exit code 1 and the
forced retry fails with exit code 5. -/
def envC6 : Env where
  attachResult := Except.ok ("/tmp/mnt", "/dev/disk4")
  listTopRes := Except.ok []
  findRes := Except.ok none
  copyRes := Except.ok ""
  spctlProc := ⟨0, "", ""⟩
  codesignProc := ⟨0, "", ""⟩
  detachNormalErr := some 1
  detachForceErr := some 5
  dryRun := false

/-- An environment whose attach succeeds and whose body steps all fail,
with a clean detach. -/
def envC1ok : Env where
  attachResult := Except.ok ("/tmp/mnt", "/dev/disk4")
  listTopRes := Except.error (Err.os "stale file handle")
  findRes := Except.error (Err.os "stale file handle")
  copyRes := Except.error (Err.os "no space left")
  spctlProc := ⟨3, "", "rejected"⟩
  codesignProc := ⟨1, "", "invalid signature"⟩
  detachNormalErr := none
  detachForceErr := none
  dryRun := false

/-- An environment whose attach itself fails. -/
def envC1err : Env where
  attachResult := Except.error (Err.tool 1)
  listTopRes := Except.ok []
  findRes := Except.ok none
  copyRes := Except.ok ""
  spctlProc := ⟨0, "", ""⟩
  codesignProc := ⟨0, "", ""⟩
  detachNormalErr := none
  detachForceErr := none
  dryRun := false

/-- An environment where the bundle is found, Gatekeeper passes and the
signature check fails. -/
def envC7 : Env where
  attachResult := Except.ok ("/tmp/mnt", "/dev/disk4")
  listTopRes := Except.ok []
  findRes := Except.ok (some "/tmp/mnt/Foo.app")
  copyRes := Except.ok ""
  spctlProc := ⟨0, "", "accepted"⟩
  codesignProc := ⟨3, "", "code object is not signed at all"⟩
  detachNormalErr := none
  detachForceErr := none
  dryRun := false

/-! ## Helper lemmas: the string order used by `sorted` -/

theorem charListLe_total : ∀ as bs, charListLe as bs = true ∨
    charListLe bs as = true := by
  intro as
  induction as with
  | nil => intro bs; exact Or.inl rfl
  | cons a tl ih =>
    intro bs
    cases bs with
    | nil => exact Or.inr rfl
    | cons b bt =>
      by_cases hab : a.toNat < b.toNat
      · left; simp [charListLe, hab]
      · by_cases hba : b.toNat < a.toNat
        · right; simp [charListLe, hba, hab]
        · rcases ih bt with h | h <;>
            simp [charListLe, hab, hba, h]

theorem charListLe_trans : ∀ as bs cs, charListLe as bs = true →
    charListLe bs cs = true → charListLe as cs = true := by
  intro as
  induction as with
  | nil => intro bs cs _ _; rfl
  | cons a tl ih =>
    intro bs cs h1 h2
    cases bs with
    | nil => simp [charListLe] at h1
    | cons b bt =>
      cases cs with
      | nil => simp [charListLe] at h2
      | cons c ct =>
        simp only [charListLe] at h1 h2 ⊢
        split at h1
        · rename_i hab
          by_cases hbc : b.toNat < c.toNat
          · have hac : a.toNat < c.toNat := Nat.lt_trans hab hbc
            simp [hac]
          · by_cases hcb : c.toNat < b.toNat
            · simp [hcb, hbc] at h2
            · have hbc2 : b.toNat = c.toNat := Nat.le_antisymm
                (Nat.le_of_not_lt hcb) (Nat.le_of_not_lt hbc)
              have hac : a.toNat < c.toNat := hbc2 ▸ hab
              simp [hac]
        · split at h1
          · exact absurd h1 (by simp)
          · rename_i hab hba
            have hab2 : a.toNat = b.toNat := Nat.le_antisymm
              (Nat.le_of_not_lt hba) (Nat.le_of_not_lt hab)
            split at h2
            · rename_i hbc
              have hac : a.toNat < c.toNat := hab2 ▸ hbc
              simp [hac]
            · split at h2
              · exact absurd h2 (by simp)
              · rename_i hbc hcb
                have hac : ¬ a.toNat < c.toNat := fun h =>
                  hbc (hab2 ▸ h)
                have hca : ¬ c.toNat < a.toNat := fun h =>
                  hcb (hab2 ▸ h)
                simp [hac, hca]
                exact ih bt ct h1 h2

theorem childLe_total : ∀ a b : String × FType, childLe a b ∨ childLe b a :=
  fun a b => charListLe_total a.1.toList b.1.toList

theorem childLe_trans : ∀ a b c : String × FType,
    childLe a b → childLe b c → childLe a c :=
  fun a b c => charListLe_trans a.1.toList b.1.toList c.1.toList

/-! ## Helper lemmas: path prefixes -/

theorem prefixOf_ex {a b : FPath} :
    a.isPrefixOf b = true ↔ ∃ t, b = a ++ t := by
  induction a generalizing b with
  | nil => simp [List.isPrefixOf]
  | cons x xs ih =>
    cases b with
    | nil => simp [List.isPrefixOf]
    | cons y ys =>
      simp only [List.isPrefixOf, Bool.and_eq_true, beq_iff_eq, ih,
        List.cons_append, List.cons.injEq]
      constructor
      · rintro ⟨rfl, t, rfl⟩; exact ⟨t, rfl, rfl⟩
      · rintro ⟨t, rfl, rfl⟩; exact ⟨rfl, t, rfl⟩

theorem prefixOf_refl (a : FPath) : a.isPrefixOf a = true :=
  prefixOf_ex.mpr ⟨[], by simp⟩

theorem prefixOf_append (a t : FPath) : a.isPrefixOf (a ++ t) = true :=
  prefixOf_ex.mpr ⟨t, rfl⟩

theorem prefixOf_length_le {a b : FPath} (h : a.isPrefixOf b = true) :
    a.length ≤ b.length := by
  rcases prefixOf_ex.mp h with ⟨t, rfl⟩
  simp

theorem prefixOf_take {a b : FPath} (h : a.isPrefixOf b = true) :
    a = b.take a.length := by
  rcases prefixOf_ex.mp h with ⟨t, rfl⟩
  exact (List.take_left a t).symm

theorem take_prefixOf (b : FPath) (n : ℕ) : (b.take n).isPrefixOf b = true :=
  prefixOf_ex.mpr ⟨b.drop n, (List.take_append_drop n b).symm⟩

theorem prefixOf_trans {a b c : FPath} (h1 : a.isPrefixOf b = true)
    (h2 : b.isPrefixOf c = true) : a.isPrefixOf c = true := by
  rcases prefixOf_ex.mp h1 with ⟨t, rfl⟩
  rcases prefixOf_ex.mp h2 with ⟨u, rfl⟩
  exact prefixOf_ex.mpr ⟨t ++ u, by simp⟩

/-- Two prefixes of one list are comparable: the shorter one is a
prefix of the longer. -/
theorem prefixOf_of_both {a b c : FPath} (ha : a.isPrefixOf c = true)
    (hb : b.isPrefixOf c = true) (hl : a.length ≤ b.length) :
    a.isPrefixOf b = true := by
  have h1 : a = c.take a.length := prefixOf_take ha
  have h2 : b = c.take b.length := prefixOf_take hb
  have h3 : a = b.take a.length := by
    rw [h2, List.take_take, Nat.min_eq_left hl, ← h1]
  rw [h3]
  exact take_prefixOf b a.length

theorem prefixOf_antisymm_length {a b : FPath}
    (h : a.isPrefixOf b = true) (hl : b.length ≤ a.length) : a = b := by
  rcases prefixOf_ex.mp h with ⟨t, rfl⟩
  have hlen : a.length + t.length ≤ a.length := by
    simpa [List.length_append] using hl
  have ht : t = [] := List.eq_nil_of_length_eq_zero (by omega)
  simp [ht]

/-! ## Helper lemmas: the last-written value of a scan loop -/

theorem lastSome_eq_none {f : SysEntity → Option String}
    {ents : List SysEntity} :
    lastSome f ents = none ↔ ∀ e ∈ ents, f e = none := by
  induction ents with
  | nil => simp [lastSome]
  | cons e t ih =>
    cases h : lastSome f t with
    | none =>
      simp only [lastSome, h]
      constructor
      · intro h2 x hx
        rcases List.mem_cons.mp hx with rfl | hx2
        · exact h2
        · exact ih.mp h x hx2
      · intro h2
        exact h2 e (List.mem_cons_self e t)
    | some v =>
      simp only [lastSome, h]
      constructor
      · intro h2; exact absurd h2 (by simp)
      · intro h2
        have h3 := ih.mpr (fun x hx => h2 x (List.mem_cons_of_mem e hx))
        exact absurd h (by simp [h3])

theorem attachStep_fst (acc : Option String × Option String)
    (ent : SysEntity) :
    (attachStep acc ent).1 = match ent.mountPoint with
      | some m => some m
      | none => acc.1 := rfl

theorem attachStep_snd (acc : Option String × Option String)
    (ent : SysEntity) :
    (attachStep acc ent).2 = match hfsDev ent with
      | some v => some v
      | none => acc.2 := by
  show (if ent.devEntry.isSome &&
      strStartsWith ((ent.contentHint).getD "") "Apple_HFS" then
    ent.devEntry else acc.2) = _
  unfold hfsDev
  cases h : (ent.devEntry.isSome &&
      strStartsWith ((ent.contentHint).getD "") "Apple_HFS") with
  | true =>
    have h3 : ent.devEntry.isSome = true := by
      cases h4 : ent.devEntry.isSome
      · simp [h4] at h
      · rfl
    rcases Option.isSome_iff_exists.mp h3 with ⟨v, hv⟩
    simp [hv]
  | false => simp

theorem attachScan_fold_fst (ents : List SysEntity) :
    ∀ init, (List.foldl attachStep init ents).1 =
      match lastSome (fun ent => ent.mountPoint) ents with
      | some v => some v
      | none => init.1 := by
  induction ents with
  | nil => intro init; simp [lastSome]
  | cons e t ih =>
    intro init
    rw [List.foldl_cons, ih (attachStep init e), attachStep_fst]
    cases h : lastSome (fun ent => ent.mountPoint) t with
    | none => simp [lastSome, h]
    | some v => simp [lastSome, h]

theorem attachScan_fold_snd (ents : List SysEntity) :
    ∀ init, (List.foldl attachStep init ents).2 =
      match lastSome hfsDev ents with
      | some v => some v
      | none => init.2 := by
  induction ents with
  | nil => intro init; simp [lastSome]
  | cons e t ih =>
    intro init
    rw [List.foldl_cons, ih (attachStep init e), attachStep_snd]
    cases h : lastSome hfsDev t with
    | none => simp [lastSome, h]
    | some v => simp [lastSome, h]

theorem attachScan_fst (ents : List SysEntity) :
    (attachScan ents).1 = lastSome (fun ent => ent.mountPoint) ents := by
  rw [attachScan, attachScan_fold_fst ents (none, none)]
  cases h : lastSome (fun ent => ent.mountPoint) ents <;> simp

theorem attachScan_snd (ents : List SysEntity) :
    (attachScan ents).2 = lastSome hfsDev ents := by
  rw [attachScan, attachScan_fold_snd ents (none, none)]
  cases h : lastSome hfsDev ents <;> simp

/-! ## Helper lemmas: the filesystem model -/

theorem lookup_append (a b : FS) (x : FPath) :
    FS.lookup (a ++ b) x = match FS.lookup a x with
      | some t => some t
      | none => FS.lookup b x := by
  induction a with
  | nil => simp [FS.lookup]
  | cons e t ih =>
    by_cases h : e.1 = x
    · simp [FS.lookup, h]
    · simp only [List.cons_append, FS.lookup, if_neg h, List.append_eq, ih]

theorem lookup_single (p x : FPath) (t : FType) :
    FS.lookup [(p, t)] x = if p = x then some t else none := rfl

/-- Looking up in a list filtered by a predicate on the key. -/
theorem lookup_filter_key (q : FPath → Bool) (fs : FS) (x : FPath) :
    FS.lookup (fs.filter (fun e => q e.1)) x =
      if q x then FS.lookup fs x else none := by
  induction fs with
  | nil => simp [FS.lookup]
  | cons e t ih =>
    by_cases hx : e.1 = x
    · subst hx
      cases h : q e.1 with
      | true => simp [FS.lookup, List.filter, h, ih]
      | false =>
        simp only [List.filter_cons, h, Bool.false_eq_true, if_neg,
          reduceIte, ih, FS.lookup]
    · cases h : q e.1 with
      | true => simp [FS.lookup, List.filter, h, hx, ih]
      | false => simp [FS.lookup, List.filter, h, hx, ih]

theorem rmtree_lookup (fs : FS) (d x : FPath) :
    FS.lookup (rmtree fs d) x =
      if d.isPrefixOf x then none else FS.lookup fs x := by
  have h := lookup_filter_key (fun p => !(d.isPrefixOf p)) fs x
  rw [rmtree]
  rw [h]
  cases h2 : d.isPrefixOf x <;> simp [h2]

theorem unlinkNode_lookup (fs : FS) (p x : FPath) :
    FS.lookup (unlinkNode fs p) x =
      if x = p then none else FS.lookup fs x := by
  have h := lookup_filter_key (fun p2 => !(decide (p2 = p))) fs x
  rw [unlinkNode]
  rw [h]
  by_cases h2 : x = p <;> simp [h2]

theorem mem_ancestors {d x : FPath} (h : x ∈ ancestors d) :
    x.isPrefixOf d = true ∧ x.length ≤ d.length := by
  rw [ancestors] at h
  rcases List.mem_map.mp h with ⟨i, hi, rfl⟩
  refine ⟨take_prefixOf d (i + 1), ?_⟩
  simp [List.length_take]

/-- The effect of a successful `mkdirAux` run: present nodes are untouched,
and every new node is a directory at one of the walked paths. -/
theorem mkdirAux_spec : ∀ (pres : List FPath) (fs fs2 : FS),
    mkdirAux fs pres = Except.ok fs2 →
    (∀ x, FS.lookup fs x ≠ none → FS.lookup fs2 x = FS.lookup fs x) ∧
    (∀ x, FS.lookup fs x = none → FS.lookup fs2 x = none ∨
      (FS.lookup fs2 x = some FType.dir ∧ x ∈ pres)) := by
  intro pres
  induction pres with
  | nil =>
    intro fs fs2 h
    cases h
    exact ⟨fun x _ => rfl, fun x h2 => Or.inl h2⟩
  | cons pre rest ih =>
    intro fs fs2 h
    rw [mkdirAux] at h
    cases hstep : mkdirStep fs pre with
    | error e => rw [hstep] at h; cases h
    | ok fs1 =>
      rw [hstep] at h
      rw [mkdirStep] at hstep
      cases hpre : FS.lookup fs pre with
      | some t =>
        cases t with
        | dir =>
          rw [hpre] at hstep
          cases hstep
          rcases ih fs fs2 h with ⟨h1, h2⟩
          refine ⟨h1, fun x hx => ?_⟩
          rcases h2 x hx with h3 | ⟨h3, h4⟩
          · exact Or.inl h3
          · exact Or.inr ⟨h3, List.mem_cons_of_mem pre h4⟩
        | file => rw [hpre] at hstep; cases hstep
        | symlink => rw [hpre] at hstep; cases hstep
      | none =>
        rw [hpre] at hstep
        cases hstep
        rcases ih (fs ++ [(pre, FType.dir)]) fs2 h with ⟨h1, h2⟩
        constructor
        · intro x hx
          have hax : FS.lookup (fs ++ [(pre, FType.dir)]) x =
              FS.lookup fs x := by
            rw [lookup_append]
            cases h3 : FS.lookup fs x with
            | some t2 => rfl
            | none => exact absurd h3 hx
          have h4 := h1 x (by rw [hax]; exact hx)
          rw [hax] at h4
          exact h4
        · intro x hx
          have hax : FS.lookup (fs ++ [(pre, FType.dir)]) x =
              if pre = x then some FType.dir else none := by
            rw [lookup_append, hx]
            exact lookup_single pre x FType.dir
          by_cases hpx : pre = x
          · subst hpx
            rw [if_pos rfl] at hax
            have h3 := h1 pre (by rw [hax]; exact (by simp))
            rw [hax] at h3
            exact Or.inr ⟨h3, List.mem_cons_self pre rest⟩
          · rw [if_neg hpx] at hax
            rcases h2 x hax with h3 | ⟨h3, h4⟩
            · exact Or.inl h3
            · exact Or.inr ⟨h3, List.mem_cons_of_mem pre h4⟩

/-- `mkdirAux` is the identity when every walked path is already a
directory. -/
theorem mkdirAux_noop : ∀ (pres : List FPath) (fs : FS),
    (∀ pre ∈ pres, FS.lookup fs pre = some FType.dir) →
    mkdirAux fs pres = Except.ok fs := by
  intro pres
  induction pres with
  | nil => intro fs _; rfl
  | cons pre rest ih =>
    intro fs h
    have hpre := h pre (List.mem_cons_self pre rest)
    rw [mkdirAux, mkdirStep, hpre]
    exact ih fs (fun x hx => h x (List.mem_cons_of_mem pre hx))

/-- Looking up a copied node: the replica of the source subtree placed at
`dest` answers below `dest` exactly as the original answers below `src`. -/
theorem lookup_copies (src dest q : FPath) : ∀ (fs : FS),
    FS.lookup (fs.filterMap (fun e =>
      if src.isPrefixOf e.1 then
        some (dest ++ e.1.drop src.length, e.2)
      else none)) (dest ++ q) = FS.lookup fs (src ++ q) := by
  intro fs
  induction fs with
  | nil => simp [FS.lookup]
  | cons e t ih =>
    cases h : src.isPrefixOf e.1 with
    | true =>
      rcases prefixOf_ex.mp h with ⟨t0, ht0⟩
      have hdrop : e.1.drop src.length = t0 := by
        rw [ht0]; exact List.drop_left src t0
      simp only [List.filterMap_cons, h, if_pos rfl, FS.lookup, hdrop]
      by_cases hq : t0 = q
      · subst hq
        rw [ht0]
        simp [FS.lookup]
      · have h1 : ¬ (dest ++ t0 = dest ++ q) := by
          simp [List.append_cancel_left_eq, hq]
        have h2 : ¬ (e.1 = src ++ q) := by
          rw [ht0]; simp [List.append_cancel_left_eq, hq]
        simp only [FS.lookup, if_neg h1, if_neg h2, ih]
    | false =>
      have hni : ¬ (src.isPrefixOf e.1 = true) := by simp [h]
      have h2 : ¬ (e.1 = src ++ q) := by
        intro hx
        rw [hx] at h
        exact absurd (prefixOf_append src q) (by simp [h])
      simp only [List.filterMap_cons, if_neg hni, FS.lookup, if_neg h2, ih]

/-- A child's path is its parent plus its name. -/
theorem child_eq {m p : FPath} (h : isChildOf m p = true) :
    p = m ++ [basename p] := by
  rw [isChildOf, Bool.and_eq_true] at h
  rcases prefixOf_ex.mp h.1 with ⟨t, rfl⟩
  have hlen : m.length + t.length = m.length + 1 := by
    have h2 := of_decide_eq_true h.2
    simpa [List.length_append] using h2
  cases t with
  | nil => simp at hlen
  | cons x xs =>
    cases xs with
    | nil => simp [basename, List.getLastD_concat]
    | cons y ys => simp [List.length_cons] at hlen

/-- The child names, as the filterMap of the key list. -/
theorem childEntries_names (fs : FS) (m : FPath) :
    (childEntries fs m).map Prod.fst =
      (fs.map Prod.fst).filterMap
        (fun p => if isChildOf m p then some (basename p) else none) := by
  induction fs with
  | nil => rfl
  | cons e t ih =>
    by_cases hc : isChildOf m e.1 = true
    · simp [childEntries, List.filterMap_cons, hc] at ih ⊢
      exact ih
    · simp [childEntries, List.filterMap_cons, hc] at ih ⊢
      exact ih

/-- The child names of a well-formed filesystem are distinct. -/
theorem childEntries_names_nodup (fs : FS) (m : FPath) (h : FS.wf fs) :
    ((childEntries fs m).map Prod.fst).Nodup := by
  rw [childEntries_names]
  refine List.Nodup.filterMap ?_ h
  intro a a2 b hb hb2
  by_cases ha : isChildOf m a = true
  · by_cases ha2 : isChildOf m a2 = true
    · simp [ha] at hb
      simp [ha2] at hb2
      rw [child_eq ha, child_eq ha2, hb, hb2]
    · simp [ha2] at hb2
  · simp [ha] at hb

/-- When the destination is not an ancestor of the source and the source
is not an ancestor of the destination directory, the destination is not an
ancestor of anything below the source either. -/
theorem dest_not_above_src {app_src dest_dir : FPath} (bn : String)
    (q : FPath)
    (h1 : (dest_dir ++ [bn]).isPrefixOf app_src = false)
    (h2 : app_src.isPrefixOf dest_dir = false) :
    (dest_dir ++ [bn]).isPrefixOf (app_src ++ q) = false := by
  cases hc : (dest_dir ++ [bn]).isPrefixOf (app_src ++ q) with
  | false => rfl
  | true =>
    exfalso
    rcases Nat.le_total (dest_dir ++ [bn]).length app_src.length with
        hl | hl
    · have h3 := prefixOf_of_both hc (prefixOf_append app_src q) hl
      rw [h3] at h1
      cases h1
    · have h3 := prefixOf_of_both (prefixOf_append app_src q) hc hl
      by_cases h4 : app_src.length ≤ dest_dir.length
      · have h5 := prefixOf_of_both h3
          (prefixOf_append dest_dir [bn]) h4
        rw [h5] at h2
        cases h2
      · have h6 : (dest_dir ++ [bn]).length ≤ app_src.length := by
          simp only [List.length_append, List.length_cons,
            List.length_nil]
          omega
        have h7 := prefixOf_antisymm_length h3 h6
        rw [← h7] at h1
        rw [prefixOf_refl] at h1
        cases h1

/-- `find?` returns the first satisfying element: what stands before it in
the list all fails the predicate. -/
theorem find?_first {α : Type} (p : α → Bool) :
    ∀ (l : List α) (a : α), l.find? p = some a →
      p a = true ∧ ∃ l1 l2, l = l1 ++ a :: l2 ∧ ∀ x ∈ l1, p x = false := by
  intro l
  induction l with
  | nil => intro a h; cases h
  | cons e t ih =>
    intro a h
    cases hp : p e with
    | true =>
      rw [List.find?_cons_of_pos _ hp] at h
      cases h
      exact ⟨hp, [], t, rfl, by simp⟩
    | false =>
      rw [List.find?_cons_of_neg _ (by simp [hp])] at h
      rcases ih a h with ⟨h1, l1, l2, rfl, h3⟩
      refine ⟨h1, e :: l1, l2, rfl, ?_⟩
      intro x hx
      rcases List.mem_cons.mp hx with rfl | hx2
      · exact hp
      · exact h3 x hx2

/-! ## The claims -/

/-- C2, counterexample to the claim as stated: in `c2ents` the entry with
the `Apple_HFS` content hint exposes mount point `/Volumes/B`, yet the code
selects `/Volumes/C` — the mount point of the last entry exposing one — so
the mount point is NOT selected primarily from the hint-matching entry
(the device is). -/
theorem C2_counterexample :
    attach_select c2ents ≠ attach_select_spec c2ents ∧
    (attach_select c2ents).1 = some "/Volumes/C" ∧
    (attach_select_spec c2ents).1 = some "/Volumes/B" ∧
    (attach_select c2ents).2 = some "/dev/disk4s1" := by
  exact ⟨by decide, rfl, rfl, rfl⟩

/-- C2 (amended): only the DEVICE identifier is selected primarily via the
content-type hint — the last entry whose hint starts with `Apple_HFS` and
which exposes a device identifier — falling back, when that selection is
absent or empty, to the first entry exposing a device identifier.  The
mount point is selected independently of the hint: it is the mount point of
the last entry exposing one (the first-mount-point fallback can never
change this, firing only when no entry exposes a mount point at all). -/
theorem C2_attach_selection (ents : List SysEntity) :
    (attach_select ents).1 = lastSome (fun ent => ent.mountPoint) ents ∧
    (attach_select ents).2 =
      (if pyTruthyStr (lastSome hfsDev ents) then lastSome hfsDev ents
       else firstDevEntry ents) := by
  constructor
  · simp only [attach_select]
    rw [attachScan_fst]
    cases h : lastSome (fun ent => ent.mountPoint) ents with
    | some v => simp
    | none =>
      simp only [if_pos rfl]
      rw [firstMountPoint]
      exact List.findSome?_eq_none_iff.mpr (lastSome_eq_none.mp h)
  · simp only [attach_select]
    rw [attachScan_snd]

/-- C5: `hdiutil_attach` raises its resolution error exactly when, after
the fallbacks, the mount point is still unset or the device identifier is
unset or empty (Python truthiness: an empty identifier string counts as no
identifier); when both are determined it returns exactly the selected
`(mountpoint, device)` pair. -/
theorem C5_resolution_error (ents : List SysEntity) :
    (hdiutil_attach_resolve ents = Except.error () ↔
      ((attach_select ents).1 = none ∨ (attach_select ents).2 = none ∨
        (attach_select ents).2 = some "")) ∧
    (∀ m d, hdiutil_attach_resolve ents = Except.ok (m, d) ↔
      ((attach_select ents).1 = some m ∧ (attach_select ents).2 = some d ∧
        d ≠ "")) := by
  cases hsel : attach_select ents with
  | mk m0 d0 =>
    simp only [hdiutil_attach_resolve, hsel]
    cases m0 with
    | none => simp
    | some m1 =>
      cases d0 with
      | none => simp
      | some d1 =>
        by_cases hd : d1 = ""
        · subst hd; simp
        · simp [hd]

/-- C5 witness: on the one-entry report `c5ents` both components are
determined and the pair is returned. -/
theorem C5_resolution_error_witness :
    hdiutil_attach_resolve c5ents =
      Except.ok ("/Volumes/V", "/dev/disk4s2") :=
  ((C5_resolution_error c5ents).2 "/Volumes/V" "/dev/disk4s2").mpr
    (by decide)

/-- C6: the detach helper first attempts a normal detach; the forced
attempt appears in its trace exactly when the normal one failed; it makes
at most those two attempts; and a failure of the forced retry propagates
as the call's error rather than being swallowed. -/
theorem C6_detach_retry (env : Env) (t : String) :
    ((hdiutil_detachT env t).1 = [Ev.detachCall t false] ∨
      (hdiutil_detachT env t).1 =
        [Ev.detachCall t false, Ev.detachCall t true]) ∧
    (Ev.detachCall t true ∈ (hdiutil_detachT env t).1 ↔
      env.detachNormalErr ≠ none) ∧
    (env.detachNormalErr = none → (hdiutil_detachT env t).2 = none) ∧
    (∀ rc, env.detachNormalErr = some rc →
      (hdiutil_detachT env t).2 = (env.detachForceErr).map Err.tool) := by
  cases hn : env.detachNormalErr with
  | none => simp [hdiutil_detachT, hn]
  | some rc1 =>
    cases hf : env.detachForceErr with
    | none => simp [hdiutil_detachT, hn, hf]
    | some rc2 => simp [hdiutil_detachT, hn, hf]

/-- C6 witness: in `envC6` the normal detach fails (exit 1), the forced
retry fails (exit 5), and that second failure is the propagated error. -/
theorem C6_detach_retry_witness :
    (hdiutil_detachT envC6 "/dev/disk4").2 =
      (envC6.detachForceErr).map Err.tool ∧
    Ev.detachCall "/dev/disk4" true ∈ (hdiutil_detachT envC6 "/dev/disk4").1 :=
  ⟨(C6_detach_retry envC6 "/dev/disk4").2.2.2 1 rfl,
   (C6_detach_retry envC6 "/dev/disk4").2.1.mpr (by decide)⟩

/-- C10: whenever `copy_app` returns, the returned destination path is the
destination directory joined with the source bundle's base name —
independent of the dry-run flag and of the prior filesystem state. -/
theorem C10_copy_dest_path (fs : FS) (app_src dest_dir : FPath)
    (dr : Bool) (fs2 : FS) (p : FPath)
    (h : copy_app fs app_src dest_dir dr = Except.ok (fs2, p)) :
    p = dest_dir ++ [basename app_src] := by
  rw [copy_app] at h
  cases hmk : mkdirParents fs dest_dir with
  | error e => rw [hmk] at h; cases h
  | ok fs1 =>
    rw [hmk] at h
    cases dr with
    | true =>
      simp only [if_pos rfl] at h
      cases h
      rfl
    | false =>
      simp only [Bool.false_eq_true, if_neg] at h
      cases hcp : copytreeSymlinks
          (if FS.pathExists fs1 (dest_dir ++ [basename app_src]) then
            if FS.pathIsDir fs1 (dest_dir ++ [basename app_src]) then
              rmtree fs1 (dest_dir ++ [basename app_src])
            else unlinkNode fs1 (dest_dir ++ [basename app_src])
          else fs1) app_src (dest_dir ++ [basename app_src]) with
      | error e => rw [hcp] at h; cases h
      | ok fs3 => rw [hcp] at h; cases h; rfl

/-- C10 witness: a concrete dry run and a concrete real run return the
same destination path. -/
theorem C10_copy_dest_path_witness :
    (["Applications", "Foo.app"] : FPath) =
      ["Applications"] ++ [basename ["mnt", "Foo.app"]] :=
  C10_copy_dest_path [(["mnt"], FType.dir), (["mnt", "Foo.app"], FType.dir)]
    ["mnt", "Foo.app"] ["Applications"] false
    [(["mnt"], FType.dir), (["mnt", "Foo.app"], FType.dir),
     (["Applications"], FType.dir),
     (["Applications", "Foo.app"], FType.dir)]
    ["Applications", "Foo.app"] rfl

/-- C3, counterexample to the claim as stated: a dry run against a missing
destination directory DOES create a filesystem entry — line 105 runs
`dest_dir.mkdir(parents=True, exist_ok=True)` before the dry-run check, so
on an empty filesystem the directory `Applications` springs into
existence. -/
theorem C3_counterexample :
    copy_app ([] : FS) ["mnt", "Foo.app"] ["Applications"] true =
      Except.ok ([(["Applications"], FType.dir)],
        ["Applications", "Foo.app"]) ∧
    FS.lookup ([] : FS) ["Applications"] = none ∧
    FS.lookup [(["Applications"], FType.dir)] ["Applications"] =
      some FType.dir :=
  ⟨rfl, rfl, rfl⟩

/-- C3 (amended): a dry run reports the would-be destination path and
touches nothing at or below that path; its only filesystem effect is
creating the destination directory chain when missing — existing nodes are
untouched, every created node is a directory on that chain, and when the
chain already exists the filesystem is returned unchanged. -/
theorem C3_dry_run (fs : FS) (app_src dest_dir : FPath) (fs2 : FS)
    (p : FPath)
    (h : copy_app fs app_src dest_dir true = Except.ok (fs2, p)) :
    p = dest_dir ++ [basename app_src] ∧
    (∀ x, FS.lookup fs x ≠ none → FS.lookup fs2 x = FS.lookup fs x) ∧
    (∀ x, FS.lookup fs x = none → FS.lookup fs2 x = none ∨
      (FS.lookup fs2 x = some FType.dir ∧ x.isPrefixOf dest_dir = true)) ∧
    (∀ q, FS.lookup fs2 (p ++ q) = FS.lookup fs (p ++ q)) ∧
    ((∀ pre ∈ ancestors dest_dir, FS.lookup fs pre = some FType.dir) →
      fs2 = fs) := by
  rw [copy_app] at h
  cases hmk : mkdirParents fs dest_dir with
  | error e => rw [hmk] at h; cases h
  | ok fs1 =>
    rw [hmk] at h
    simp only [if_pos rfl] at h
    cases h
    rw [mkdirParents] at hmk
    rcases mkdirAux_spec (ancestors dest_dir) fs fs2 hmk with ⟨h1, h2⟩
    refine ⟨rfl, h1, ?_, ?_, ?_⟩
    · intro x hx
      rcases h2 x hx with h3 | ⟨h3, h4⟩
      · exact Or.inl h3
      · exact Or.inr ⟨h3, (mem_ancestors h4).1⟩
    · intro q
      by_cases hx : FS.lookup fs (dest_dir ++ [basename app_src] ++ q) = none
      · rcases h2 _ hx with h3 | ⟨h3, h4⟩
        · rw [h3, hx]
        · have h5 := (mem_ancestors h4).2
          rw [List.length_append, List.length_append] at h5
          simp only [List.length_cons, List.length_nil] at h5
          omega
      · rw [h1 _ hx]
    · intro hall
      have h3 := mkdirAux_noop (ancestors dest_dir) fs hall
      rw [h3] at hmk
      cases hmk
      rfl

/-- C3 witness: on a filesystem holding only the mounted bundle, a dry run
leaves the (absent) destination path absent. -/
theorem C3_dry_run_witness :
    FS.lookup [((["Applications"] : FPath), FType.dir),
        (["mnt"], FType.dir), (["mnt", "Foo.app"], FType.dir)]
      (["Applications", "Foo.app"] ++ []) =
    FS.lookup [((["Applications"] : FPath), FType.dir),
        (["mnt"], FType.dir), (["mnt", "Foo.app"], FType.dir)]
      (["Applications", "Foo.app"] ++ []) :=
  (C3_dry_run
    [(["Applications"], FType.dir), (["mnt"], FType.dir),
     (["mnt", "Foo.app"], FType.dir)]
    ["mnt", "Foo.app"] ["Applications"]
    [(["Applications"], FType.dir), (["mnt"], FType.dir),
     (["mnt", "Foo.app"], FType.dir)]
    ["Applications", "Foo.app"] rfl).2.2.2.1 []

/-- C4, counterexample to the claim as stated: `rglob('*.app')` matches
entries of every kind, so with only a FILE named `readme.app` below the
mount point, `find_app_bundle` returns that file although no directory
ending in `.app` exists (the claim, as the spec's words, would then
require `None` — the spec-modelled `find_app_bundle_spec`). -/
theorem C4_counterexample :
    find_app_bundle
        [(["mnt"], FType.dir), (["mnt", "readme.app"], FType.file)]
        ["mnt"] = some ["mnt", "readme.app"] ∧
    FS.lookup [(["mnt"], FType.dir), (["mnt", "readme.app"], FType.file)]
        ["mnt", "readme.app"] = some FType.file ∧
    find_app_bundle_spec
        [(["mnt"], FType.dir), (["mnt", "readme.app"], FType.file)]
        ["mnt"] = none :=
  ⟨rfl, rfl, rfl⟩

/-- C4 (amended): `find_app_bundle` returns the first ENTRY — of any kind,
directory or file — in traversal order strictly below the mount point whose
name ends in `.app`, and `None` exactly when no such entry exists. -/
theorem C4_find_app_bundle (fs : FS) (m : FPath) :
    (find_app_bundle fs m = none ↔ ∀ e ∈ fs, rglobAppMatch m e = false) ∧
    (∀ p, find_app_bundle fs m = some p →
      ∃ e l1 l2, fs = l1 ++ e :: l2 ∧ e.1 = p ∧ rglobAppMatch m e = true ∧
        ∀ x ∈ l1, rglobAppMatch m x = false) := by
  constructor
  · rw [find_app_bundle]
    constructor
    · intro h e he
      cases hf : fs.find? (rglobAppMatch m) with
      | none =>
        have h2 := List.find?_eq_none.mp hf e he
        cases hval : rglobAppMatch m e with
        | true => exact absurd hval h2
        | false => rfl
      | some e2 => rw [hf] at h; cases h
    · intro h
      rw [List.find?_eq_none.mpr (fun x hx => by simp [h x hx])]
      rfl
  · intro p h
    rw [find_app_bundle] at h
    cases hf : fs.find? (rglobAppMatch m) with
    | none => rw [hf] at h; cases h
    | some e =>
      rw [hf] at h
      cases h
      rcases find?_first (rglobAppMatch m) fs e hf with ⟨h1, l1, l2, h4, h3⟩
      exact ⟨e, l1, l2, h4, rfl, h1, h3⟩

/-- C4 witness: on a mount containing the directory `Foo.app`, the search
returns it as the first match. -/
theorem C4_find_app_bundle_witness :
    ∃ e l1 l2,
      ([((["mnt"] : FPath), FType.dir), (["mnt", "Foo.app"], FType.dir)] :
        FS) = l1 ++ e :: l2 ∧
      e.1 = ["mnt", "Foo.app"] ∧ rglobAppMatch ["mnt"] e = true ∧
      ∀ x ∈ l1, rglobAppMatch ["mnt"] x = false :=
  (C4_find_app_bundle
    [(["mnt"], FType.dir), (["mnt", "Foo.app"], FType.dir)] ["mnt"]).2
    ["mnt", "Foo.app"] rfl

/-- C1: for the `list`, `copy` and `verify` subcommands, whenever the
attach succeeds, the detach on the obtained device is invoked on EVERY
continuation — in particular on every body step that raises, since the
`finally` block runs before the error leaves the command; and when the
attach itself fails, no detach of any kind is attempted. -/
theorem C1_session_detach (env : Env) :
    (∀ mp dev, env.attachResult = Except.ok (mp, dev) →
      Ev.detachCall dev false ∈ (cmd_list env).1 ∧
      Ev.detachCall dev false ∈ (cmd_copy env).1 ∧
      Ev.detachCall dev false ∈ (cmd_verify env).1) ∧
    (∀ e, env.attachResult = Except.error e →
      noDetach (cmd_list env).1 ∧ noDetach (cmd_copy env).1 ∧
      noDetach (cmd_verify env).1) := by
  constructor
  · intro mp dev h
    have hdet : Ev.detachCall dev false ∈ (hdiutil_detachT env dev).1 := by
      cases hn : env.detachNormalErr with
      | none => simp [hdiutil_detachT, hn]
      | some rc =>
        cases hf : env.detachForceErr <;> simp [hdiutil_detachT, hn, hf]
    refine ⟨?_, ?_, ?_⟩
    · simp only [cmd_list, h, withDetach]
      exact List.mem_cons_of_mem _ (List.mem_append_right _ hdet)
    · simp only [cmd_copy, h, withDetach]
      exact List.mem_cons_of_mem _ (List.mem_append_right _ hdet)
    · simp only [cmd_verify, h, withDetach]
      exact List.mem_cons_of_mem _ (List.mem_append_right _ hdet)
  · intro e h
    refine ⟨?_, ?_, ?_⟩ <;>
      simp [cmd_list, cmd_copy, cmd_verify, h, noDetach]

/-- C1 witness: with `envC1ok` (attach succeeds, every body step fails)
all three commands still detach `/dev/disk4`; with `envC1err` (attach
fails) the `list` command performs no detach. -/
theorem C1_session_detach_witness :
    (Ev.detachCall "/dev/disk4" false ∈ (cmd_list envC1ok).1 ∧
     Ev.detachCall "/dev/disk4" false ∈ (cmd_copy envC1ok).1 ∧
     Ev.detachCall "/dev/disk4" false ∈ (cmd_verify envC1ok).1) ∧
    noDetach (cmd_list envC1err).1 :=
  ⟨(C1_session_detach envC1ok).1 "/tmp/mnt" "/dev/disk4" rfl,
   ((C1_session_detach envC1err).2 (Err.tool 1) rfl).1⟩

/-- C7: both checks are total functions of their process outcome (the only
exception the modelled `run` raises, `CalledProcessError`, is caught):
they return pass exactly on a zero exit; a zero exit's message is the
stripped diagnostic stream when populated, else the stripped standard
stream; a non-zero exit's message is the stripped content of whichever raw
stream is populated, diagnostic first.  Consequently `verify` runs both
checks and prints both OK/FAIL lines whatever the two outcomes are. -/
theorem C7_checks_total (r : ProcResult) (env : Env) :
    ((spctl_assess r).1 = true ↔ r.returncode = 0) ∧
    ((codesign_verify r).1 = true ↔ r.returncode = 0) ∧
    (r.returncode = 0 →
      (spctl_assess r).2 = pyOrStr (pyStrip r.stderr) (pyStrip r.stdout) ∧
      (codesign_verify r).2 =
        pyOrStr (pyStrip r.stderr) (pyStrip r.stdout)) ∧
    (r.returncode ≠ 0 →
      (spctl_assess r).2 = pyStrip (pyOrStr r.stderr r.stdout) ∧
      (codesign_verify r).2 = pyStrip (pyOrStr r.stderr r.stdout)) ∧
    (∀ mp dev app, env.attachResult = Except.ok (mp, dev) →
      env.findRes = Except.ok (some app) →
      Ev.spctlCall ∈ (cmd_verify env).1 ∧
      Ev.codesignCall ∈ (cmd_verify env).1 ∧
      Ev.printLine ("Gatekeeper: " ++
        (if (spctl_assess env.spctlProc).1 then "OK" else "FAIL") ++
        " — " ++ (spctl_assess env.spctlProc).2) ∈ (cmd_verify env).1 ∧
      Ev.printLine ("codesign:   " ++
        (if (codesign_verify env.codesignProc).1 then "OK" else "FAIL") ++
        " — " ++ (codesign_verify env.codesignProc).2) ∈
        (cmd_verify env).1) := by
  refine ⟨?_, ?_, ?_, ?_, ?_⟩
  · by_cases hrc : r.returncode = 0 <;> simp [spctl_assess, hrc]
  · by_cases hrc : r.returncode = 0 <;> simp [codesign_verify, hrc]
  · intro hrc; simp [spctl_assess, codesign_verify, hrc]
  · intro hrc; simp [spctl_assess, codesign_verify, hrc]
  · intro mp dev app h1 h2
    simp only [cmd_verify, h1, h2, withDetach]
    refine ⟨?_, ?_, ?_, ?_⟩ <;>
      simp [List.mem_cons, List.mem_append]

/-- C7 witness: in `envC7` Gatekeeper passes (exit 0) while codesign fails
(exit 3), and the `verify` trace still contains both check invocations. -/
theorem C7_checks_total_witness :
    Ev.spctlCall ∈ (cmd_verify envC7).1 ∧
    Ev.codesignCall ∈ (cmd_verify envC7).1 :=
  ((C7_checks_total envC7.spctlProc envC7).2.2.2.2 "/tmp/mnt" "/dev/disk4"
    "/tmp/mnt/Foo.app" rfl rfl).2.1 |>
    (fun h2 => ⟨((C7_checks_total envC7.spctlProc envC7).2.2.2.2 "/tmp/mnt"
      "/dev/disk4" "/tmp/mnt/Foo.app" rfl rfl).1, h2⟩)

/-- C8: a real (non-dry) copy against a destination where an entry already
exists replaces it wholesale: afterwards the subtree below the returned
destination equals — node for node, kinds included, so symlink entries stay
symlink entries (`symlinks=True`) and no stale node survives — the source
bundle's subtree.  Hypotheses: the run succeeded; an entry already existed
at the destination; destination and source do not sit one inside the
other's tree; and nothing sits below a non-directory destination (true of
every real filesystem). -/
theorem C8_copy_replaces (fs : FS) (app_src dest_dir : FPath) (fs2 : FS)
    (p : FPath)
    (h : copy_app fs app_src dest_dir false = Except.ok (fs2, p))
    (hex : FS.pathExists fs (dest_dir ++ [basename app_src]) = true)
    (h1 : (dest_dir ++ [basename app_src]).isPrefixOf app_src = false)
    (h2 : app_src.isPrefixOf dest_dir = false)
    (h3 : FS.pathIsDir fs (dest_dir ++ [basename app_src]) = false →
      ∀ q, q ≠ [] →
        FS.lookup fs (dest_dir ++ [basename app_src] ++ q) = none) :
    ∀ q, FS.lookup fs2 (p ++ q) = FS.lookup fs (app_src ++ q) := by
  rw [copy_app] at h
  cases hmk : mkdirParents fs dest_dir with
  | error e => rw [hmk] at h; cases h
  | ok fs1 =>
    rw [hmk] at h
    simp only [Bool.false_eq_true, if_neg] at h
    have hd0 : FS.lookup fs (dest_dir ++ [basename app_src]) ≠ none := by
      intro hn
      rw [FS.pathExists, hn] at hex
      cases hex
    rw [mkdirParents] at hmk
    rcases mkdirAux_spec (ancestors dest_dir) fs fs1 hmk with ⟨hA1, hA2⟩
    have hBdest : FS.lookup fs1 (dest_dir ++ [basename app_src]) =
        FS.lookup fs (dest_dir ++ [basename app_src]) := hA1 _ hd0
    have hEx1 : FS.pathExists fs1 (dest_dir ++ [basename app_src]) = true := by
      rw [FS.pathExists, hBdest]
      exact hex
    rw [if_pos hEx1] at h
    have hsrcFs1 : ∀ q, FS.lookup fs1 (app_src ++ q) =
        FS.lookup fs (app_src ++ q) := by
      intro q
      by_cases hx : FS.lookup fs (app_src ++ q) = none
      · rcases hA2 _ hx with h4 | ⟨h4, h5⟩
        · rw [h4, hx]
        · exfalso
          have h6 := prefixOf_trans (prefixOf_append app_src q)
            (mem_ancestors h5).1
          rw [h6] at h2
          cases h2
      · exact hA1 _ hx
    have hnotpre : ∀ q,
        (dest_dir ++ [basename app_src]).isPrefixOf (app_src ++ q) =
          false := fun q => dest_not_above_src (basename app_src) q h1 h2
    cases hdir : FS.pathIsDir fs1 (dest_dir ++ [basename app_src]) with
    | true =>
      rw [if_pos hdir] at h
      cases hcp : copytreeSymlinks
          (rmtree fs1 (dest_dir ++ [basename app_src])) app_src
          (dest_dir ++ [basename app_src]) with
      | error e => rw [hcp] at h; cases h
      | ok fs3 =>
        rw [hcp] at h
        cases h
        rw [copytreeSymlinks] at hcp
        by_cases hsrc : FS.lookup
            (rmtree fs1 (dest_dir ++ [basename app_src])) app_src =
            some FType.dir
        · rw [if_neg (not_not_intro hsrc)] at hcp
          by_cases hde : FS.pathExists
              (rmtree fs1 (dest_dir ++ [basename app_src]))
              (dest_dir ++ [basename app_src]) = true
          · rw [if_pos hde] at hcp; cases hcp
          · rw [if_neg hde] at hcp
            cases hcp
            intro q
            rw [lookup_append]
            have hR1 : FS.lookup
                (rmtree fs1 (dest_dir ++ [basename app_src]))
                (dest_dir ++ [basename app_src] ++ q) = none := by
              rw [rmtree_lookup,
                if_pos (prefixOf_append (dest_dir ++ [basename app_src]) q)]
            rw [hR1, lookup_copies, rmtree_lookup]
            have h7 := hnotpre q
            rw [h7]
            simp only [Bool.false_eq_true, if_neg]
            exact hsrcFs1 q
        · rw [if_pos hsrc] at hcp; cases hcp
    | false =>
      have hdirn : ¬ (FS.pathIsDir fs1 (dest_dir ++ [basename app_src]) =
          true) := by
        rw [hdir]
        exact Bool.false_ne_true
      rw [if_neg hdirn] at h
      have hdirFs : FS.pathIsDir fs (dest_dir ++ [basename app_src]) =
          false := by
        rw [FS.pathIsDir, ← hBdest]
        exact hdir
      cases hcp : copytreeSymlinks
          (unlinkNode fs1 (dest_dir ++ [basename app_src])) app_src
          (dest_dir ++ [basename app_src]) with
      | error e => rw [hcp] at h; cases h
      | ok fs3 =>
        rw [hcp] at h
        cases h
        rw [copytreeSymlinks] at hcp
        by_cases hsrc : FS.lookup
            (unlinkNode fs1 (dest_dir ++ [basename app_src])) app_src =
            some FType.dir
        · rw [if_neg (not_not_intro hsrc)] at hcp
          by_cases hde : FS.pathExists
              (unlinkNode fs1 (dest_dir ++ [basename app_src]))
              (dest_dir ++ [basename app_src]) = true
          · rw [if_pos hde] at hcp; cases hcp
          · rw [if_neg hde] at hcp
            cases hcp
            intro q
            rw [lookup_append]
            have hR1 : FS.lookup
                (unlinkNode fs1 (dest_dir ++ [basename app_src]))
                (dest_dir ++ [basename app_src] ++ q) = none := by
              rw [unlinkNode_lookup]
              cases q with
              | nil => simp
              | cons c q2 =>
                have hne : ¬ (dest_dir ++ [basename app_src] ++ (c :: q2) =
                    dest_dir ++ [basename app_src]) := by
                  intro hq
                  have := congrArg List.length hq
                  simp [List.length_append] at this
                rw [if_neg hne]
                have h8 := h3 hdirFs (c :: q2) (by simp)
                by_cases hx : FS.lookup fs
                    (dest_dir ++ [basename app_src] ++ (c :: q2)) = none
                · rcases hA2 _ hx with h9 | ⟨h9, h10⟩
                  · exact h9
                  · exfalso
                    have h11 := (mem_ancestors h10).2
                    rw [List.length_append, List.length_append] at h11
                    simp only [List.length_cons, List.length_nil] at h11
                    omega
                · exact absurd h8 hx
            rw [hR1, lookup_copies, unlinkNode_lookup]
            have hne2 : ¬ (app_src ++ q = dest_dir ++ [basename app_src]) := by
              intro hq
              have h12 := hnotpre q
              rw [← hq] at h12
              rw [prefixOf_refl] at h12
              cases h12
            rw [if_neg hne2]
            exact hsrcFs1 q
        · rw [if_pos hsrc] at hcp; cases hcp

/-- C8 witness: a concrete real copy over an existing destination holding
a stale file: the stale node is gone afterwards, and the source's symlink
entry arrives as a symlink entry. -/
theorem C8_copy_replaces_witness :
    FS.lookup
      [((["mnt"] : FPath), FType.dir), (["mnt", "Foo.app"], FType.dir),
       (["mnt", "Foo.app", "bin"], FType.file),
       (["mnt", "Foo.app", "lnk"], FType.symlink),
       (["Applications"], FType.dir),
       (["Applications", "Foo.app"], FType.dir),
       (["Applications", "Foo.app", "bin"], FType.file),
       (["Applications", "Foo.app", "lnk"], FType.symlink)]
      (["Applications", "Foo.app"] ++ ["stale.txt"]) =
    FS.lookup
      [((["mnt"] : FPath), FType.dir), (["mnt", "Foo.app"], FType.dir),
       (["mnt", "Foo.app", "bin"], FType.file),
       (["mnt", "Foo.app", "lnk"], FType.symlink),
       (["Applications"], FType.dir),
       (["Applications", "Foo.app"], FType.dir),
       (["Applications", "Foo.app", "stale.txt"], FType.file)]
      (["mnt", "Foo.app"] ++ ["stale.txt"]) ∧
    FS.lookup
      [((["mnt"] : FPath), FType.dir), (["mnt", "Foo.app"], FType.dir),
       (["mnt", "Foo.app", "bin"], FType.file),
       (["mnt", "Foo.app", "lnk"], FType.symlink),
       (["Applications"], FType.dir),
       (["Applications", "Foo.app"], FType.dir),
       (["Applications", "Foo.app", "bin"], FType.file),
       (["Applications", "Foo.app", "lnk"], FType.symlink)]
      (["Applications", "Foo.app"] ++ ["lnk"]) =
    FS.lookup
      [((["mnt"] : FPath), FType.dir), (["mnt", "Foo.app"], FType.dir),
       (["mnt", "Foo.app", "bin"], FType.file),
       (["mnt", "Foo.app", "lnk"], FType.symlink),
       (["Applications"], FType.dir),
       (["Applications", "Foo.app"], FType.dir),
       (["Applications", "Foo.app", "stale.txt"], FType.file)]
      (["mnt", "Foo.app"] ++ ["lnk"]) :=
  ⟨C8_copy_replaces
    [(["mnt"], FType.dir), (["mnt", "Foo.app"], FType.dir),
     (["mnt", "Foo.app", "bin"], FType.file),
     (["mnt", "Foo.app", "lnk"], FType.symlink),
     (["Applications"], FType.dir),
     (["Applications", "Foo.app"], FType.dir),
     (["Applications", "Foo.app", "stale.txt"], FType.file)]
    ["mnt", "Foo.app"] ["Applications"] _ _ rfl (by decide) (by decide)
    (by decide) (fun hfd => absurd hfd (by decide)) ["stale.txt"],
   C8_copy_replaces
    [(["mnt"], FType.dir), (["mnt", "Foo.app"], FType.dir),
     (["mnt", "Foo.app", "bin"], FType.file),
     (["mnt", "Foo.app", "lnk"], FType.symlink),
     (["Applications"], FType.dir),
     (["Applications", "Foo.app"], FType.dir),
     (["Applications", "Foo.app", "stale.txt"], FType.file)]
    ["mnt", "Foo.app"] ["Applications"] _ _ rfl (by decide) (by decide)
    (by decide) (fun hfd => absurd hfd (by decide)) ["lnk"]⟩

/-- C9: on a well-formed filesystem, `list_top` is the annotation — `[D]`
for directories, `[F]` otherwise — of SOME arrangement of exactly the
immediate children (one entry per child, names distinct) that is sorted by
name in the string order; and on the concrete mount with children
`A` (directory) and `B` (file) it returns exactly
`["[D] A", "[F] B"]`. -/
theorem C9_list_top (fs : FS) (m : FPath) (h : FS.wf fs) :
    (∃ cs, cs.Perm (childEntries fs m) ∧
      List.Sorted childLe cs ∧
      (cs.map Prod.fst).Nodup ∧
      list_top fs m = cs.map annotate) ∧
    list_top
      [(["mnt"], FType.dir), (["mnt", "A"], FType.dir),
       (["mnt", "B"], FType.file)] ["mnt"] = ["[D] A", "[F] B"] := by
  refine ⟨⟨(childEntries fs m).insertionSort childLe,
    List.perm_insertionSort childLe _, ?_, ?_, rfl⟩, by decide⟩
  · exact @List.sorted_insertionSort _ childLe _ ⟨childLe_total⟩
      ⟨childLe_trans⟩ _
  · exact (((List.perm_insertionSort childLe
      (childEntries fs m)).map Prod.fst).nodup_iff).mpr
      (childEntries_names_nodup fs m h)

/-- C9 witness: the well-formedness bound holds on the concrete example
and the listing is as the claim states. -/
theorem C9_list_top_witness :
    list_top
      [(["mnt"], FType.dir), (["mnt", "A"], FType.dir),
       (["mnt", "B"], FType.file)] ["mnt"] = ["[D] A", "[F] B"] :=
  (C9_list_top
    [(["mnt"], FType.dir), (["mnt", "A"], FType.dir),
     (["mnt", "B"], FType.file)] ["mnt"] (by decide)).2

end Pokerok
